import Mathlib

/-!
# Verification of the gmail_mcp mailbox-protocol client

A shallow embedding, in Lean 4, of the core algorithms of `src/imap-service.ts`:
the header parser, the mailbox-tree flattener, the query translator, the
connection-lifecycle manager, the fetch pipeline, and the delete / move-label
operations, together with theorems settling the specification claims.

Modelling conventions:
* JavaScript strings are Lean `String`s; character-level operations
  (`split`, `trim`, regular-expression scanning) are computed on `String.data`
  (`List Char`) with structurally recursive functions so that all definitions
  evaluate by kernel reduction. Inputs in the examples are ASCII.
* JavaScript truthiness of an optional string (`undefined` and `""` are falsy)
  is the `truthy` predicate; `x || d` on such a value is `optStr`/`optChars`.
* `Date` values are represented by their ISO string; `new Date(s).getTime()`
  is an abstract total function `timeOf : String → Int` supplied as a model
  parameter; `new Date().toISOString()` at parse time is the parameter `now`.
* The IMAP server is a model record (`ImapModel`, `MoveBehavior`, …) giving
  the server's response to each command the code can issue; operations that
  issue commands also return the list of issued commands so that command-trace
  claims can be stated.
-/

namespace GmailMcp

/-! ## JavaScript string primitives, structurally recursive over `List Char` -/

/-- The whitespace class used by JavaScript `trim` / `\s` on the ASCII range. -/
def isSpaceChar (c : Char) : Bool :=
  c = ' ' || c = '\t' || c = '\n' || c = '\r'

/-- Strip leading and trailing whitespace (JavaScript `String.prototype.trim`). -/
def trimChars (l : List Char) : List Char :=
  ((l.dropWhile isSpaceChar).reverse.dropWhile isSpaceChar).reverse

/-- Prepend a character to the first piece of a split result. -/
def consHead (c : Char) : List (List Char) → List (List Char)
  | [] => [[c]]
  | s :: ss => (c :: s) :: ss

/-- JavaScript `String.prototype.split` with a one-character separator:
`splitChar sep l` cuts `l` at every occurrence of `sep`. Never empty;
`[[]]` on the empty input, exactly as `"".split(sep)` is `[""]`. -/
def splitChar (sep : Char) : List Char → List (List Char)
  | [] => [[]]
  | c :: rest =>
    if c = sep then [] :: splitChar sep rest
    else consHead c (splitChar sep rest)

/-- JavaScript `String.prototype.split` with the two-character separator
`"\r\n"`, as used on the raw header block. -/
def splitCRLF : List Char → List (List Char)
  | [] => [[]]
  | '\r' :: '\n' :: rest => [] :: splitCRLF rest
  | c :: rest => consHead c (splitCRLF rest)

/-- JavaScript truthiness of an optional string value:
`undefined`/`null` and the empty string are falsy. -/
def truthy : Option (List Char) → Bool
  | none => false
  | some s => !s.isEmpty

/-- JavaScript `x || d` where `x` is an optional string (as characters) and
`d` a default: the string when truthy, else the default. -/
def optChars : Option (List Char) → String → String
  | none, d => d
  | some s, d => if s = [] then d else String.mk s

/-- JavaScript `x || d` for an optional `String`. -/
def optStr : Option String → String → String
  | none, d => d
  | some s, d => if s = "" then d else s

/-- JavaScript `x?.toString() ?? ''` for an optional number. -/
def optNatStr : Option Nat → String
  | none => ""
  | some n => toString n

/-! ## Header Parser (`ImapService.parseHeader`) -/

/-- The `EmailMessage` record of `types.ts` (the optional `body` field is
never set by the IMAP service and is omitted). -/
structure EmailMessage where
  id : String
  threadId : String
  subject : String
  «from» : String
  «to» : List String
  date : String
  snippet : String
  labels : List String
deriving DecidableEq, Repr

/-- The server-attributed metadata handed to `parseHeader` (`attrs`): the UID
and the receipt timestamp (`attrs.date`, as its ISO string) when present. -/
structure Attrs where
  uid : Option Nat
  date : Option String
deriving DecidableEq, Repr

/-- One line of a raw header block, as processed by the loop in `parseHeader`:
a line containing a colon contributes the pair (lower-cased and trimmed name
before the first colon, trimmed remainder rejoined on colons); any other line
is ignored. -/
def headerLineEntry (line : List Char) : Option (List Char × List Char) :=
  if line.contains ':' then
    match splitChar ':' line with
    | [] => none
    | key :: valueParts =>
      some (trimChars (key.map Char.toLower),
            trimChars (List.intercalate [':'] valueParts))
  else none

/-- The `headers` record built by `parseHeader` from the CRLF-separated raw
block, looked up at `key`; later lines overwrite earlier ones, as JavaScript
object assignment does. -/
def headerValue (header : String) (key : List Char) : Option (List Char) :=
  ((splitCRLF header.data).filterMap headerLineEntry).foldl
    (fun acc p => if p.1 = key then some p.2 else acc) none

/-- The `toField` computation of `parseHeader`: when the `to` header is
truthy, split it on commas, trim each entry and drop the empty ones
(`filter(Boolean)`); otherwise the empty list. -/
def toFieldOf (header : String) : List String :=
  let hTo := headerValue header "to".data
  if truthy hTo then
    ((((splitChar ',' (hTo.getD [])).map trimChars).filter
      (fun s => s ≠ [])).map String.mk)
  else []

/-- `ImapService.parseHeader`: raw header block + attributes → `EmailMessage`.
`now` is the ISO string of the parse time (`new Date().toISOString()`). -/
def parseHeader (header : String) (attrs : Attrs) (now : String) : EmailMessage :=
  let hSubject := headerValue header "subject".data
  let hFrom := headerValue header "from".data
  let hTo := headerValue header "to".data
  let toField := toFieldOf header
  { id := optNatStr attrs.uid
    threadId := optNatStr attrs.uid
    subject := optChars hSubject "(No Subject)"
    «from» := optChars hFrom ""
    «to» := if toField.length > 0 then toField else [String.mk (hTo.getD [])]
    date := optStr attrs.date now
    snippet := optChars hSubject "(No Subject)" ++ " - " ++ optChars hFrom "Unknown sender"
    labels := ["INBOX"] }

/-! ## Connection Lifecycle Manager (`ImapService.connectAndRun`)

`connectAndRun(action)` creates a connection; on the `ready` event it calls
`action(imap, succeed, fail)` inside a `try`, where `succeed`/`fail` first run
`cleanup()` (`imap.end()`) and then resolve/reject the promise, and a
synchronous throw from `action` is caught and turned into `cleanup();
reject(err)`. On a pre-ready `error` event it runs `cleanup(); reject(err)`.

We model an action by the finite sequence of completion callbacks it invokes
synchronously, plus an optional error it throws at the end, and we record the
observable event trace of one `connectAndRun` run: each `cleanup()` call and
each settlement of the promise, in execution order. -/

/-- One completion-callback invocation performed by an action: the action
calls the provided `resolve` (`succeed`) or `reject` (`fail`). -/
inductive AStep (T E : Type) where
  | succeed : T → AStep T E
  | fail : E → AStep T E
deriving DecidableEq, Repr

/-- A synchronous action body: the completion callbacks it invokes, in order,
and—after all of them—an optional synchronously thrown error. -/
structure Action (T E : Type) where
  steps : List (AStep T E)
  thrown : Option E
deriving DecidableEq, Repr

/-- Observable events of one `connectAndRun` run: a `cleanup()` (i.e.
`imap.end()`) call, or a settlement call on the underlying promise. -/
inductive Ev (T E : Type) where
  | cleanup : Ev T E
  | resolve : T → Ev T E
  | reject : E → Ev T E
deriving DecidableEq, Repr

/-- The events produced by one completion-callback invocation: the wrappers
installed by `connectAndRun` run `cleanup()` first, then settle the promise. -/
def stepTrace {T E : Type} : AStep T E → List (Ev T E)
  | .succeed v => [.cleanup, .resolve v]
  | .fail e => [.cleanup, .reject e]

/-- The event trace of the `ready` handler of `connectAndRun`: the action's
callback invocations in order, then—if the action throws synchronously—the
`catch` block's `cleanup(); reject(err)`. -/
def readyTrace {T E : Type} (a : Action T E) : List (Ev T E) :=
  (a.steps.map stepTrace).flatten ++
    (match a.thrown with
     | some e => [Ev.cleanup, Ev.reject e]
     | none => [])

/-- How one `connectAndRun` run concludes at the transport level: either the
`ready` event fires and the action runs, or a connection-level `error` event
fires first. -/
inductive ConnectOutcome (T E : Type) where
  | ready : Action T E → ConnectOutcome T E
  | connError : E → ConnectOutcome T E

/-- The full event trace of one `connectAndRun` run. -/
def connectAndRunTrace {T E : Type} : ConnectOutcome T E → List (Ev T E)
  | .ready a => readyTrace a
  | .connError e => [Ev.cleanup, Ev.reject e]

/-- Is an event a settlement of the promise (what the caller observes)? -/
def isSettle {T E : Type} : Ev T E → Bool
  | .cleanup => false
  | .resolve _ => true
  | .reject _ => true

/-- Number of `cleanup()` (connection teardown) calls in a trace. -/
def cleanupCount {T E : Type} (tr : List (Ev T E)) : Nat :=
  tr.countP fun ev => !isSettle ev

/-- Index of the first settlement in the trace: a promise settles at its
first resolve/reject; that is the result the caller observes. -/
def settleIdx {T E : Type} (tr : List (Ev T E)) : Option Nat :=
  tr.findIdx? isSettle

/-- Index of the first `cleanup()` call in the trace. -/
def cleanupIdx {T E : Type} (tr : List (Ev T E)) : Option Nat :=
  tr.findIdx? fun ev => !isSettle ev

/-! ## Fetch Pipeline (`ImapService.fetchMessages`) and search
(`ImapService.performSearch`) -/

/-- One item streamed back by the server for a bulk fetch: the raw header
bytes accumulated from the `body` events and, if the `attributes` event fired
for this message, its attribute record. A message whose attributes never
arrive is dropped by the `end` handler. -/
structure FetchItem where
  header : String
  attrs : Option Attrs
deriving DecidableEq, Repr

/-- The message-identifier source of `fetchMessages`: a sequence-number range
in string form (`imap.seq.fetch`) or an explicit UID list (`imap.fetch`). -/
inductive FetchSource where
  | seqRange : String → FetchSource
  | uidList : List Nat → FetchSource
deriving DecidableEq, Repr

/-- The model of the remote IMAP server and of the ambient clock, fixed for
one operation. `store uid` is the fetch item the server streams for `uid`
(none when the UID matches no message); `rangeItems r` is the item sequence
streamed for a sequence-range fetch `r`; `timeOf s` is
`new Date(s).getTime()`; `now` is `new Date().toISOString()` at parse time. -/
structure ImapModel where
  store : Nat → Option FetchItem
  rangeItems : String → List FetchItem
  timeOf : String → Int
  now : String

/-- The items the server streams back for one bulk fetch: for an explicit
UID list, one item per UID that matches a message, in list order. -/
def fetchItems (m : ImapModel) : FetchSource → List FetchItem
  | .seqRange r => m.rangeItems r
  | .uidList uids => uids.filterMap m.store

/-- The `message`-event handling of `fetchMessages`: each item that has an
attribute record is parsed with `parseHeader` and pushed in arrival order;
items without attributes are skipped. -/
def parseFetched (now : String) (items : List FetchItem) : List EmailMessage :=
  items.filterMap fun it => it.attrs.map fun a => parseHeader it.header a now

/-- The comparator of the final `messages.sort`: message `a` may stay before
`b` when `new Date(b.date).getTime() - new Date(a.date).getTime() ≤ 0`,
i.e. newest first. -/
def dateGE (timeOf : String → Int) (a b : EmailMessage) : Bool :=
  timeOf b.date ≤ timeOf a.date

/-- The `end`-event handling of `fetchMessages`: sort the collected messages
newest-first. JavaScript `Array.prototype.sort` is a stable sort, modelled by
the (extensionally unique) stable `mergeSort` under the same comparator. -/
def sortByDateDesc (timeOf : String → Int) (msgs : List EmailMessage) : List EmailMessage :=
  msgs.mergeSort (dateGE timeOf)

/-- `ImapService.fetchMessages`, as (issued protocol commands, parsed
messages): an empty explicit UID list resolves `[]` immediately, before the
fetch command is built; otherwise one bulk fetch is issued and the parsed
messages are sorted newest-first. -/
def fetchMessagesRun (m : ImapModel) (source : FetchSource) :
    List String × List EmailMessage :=
  match source with
  | .uidList [] => ([], [])
  | .uidList (u :: us) =>
    (["FETCH"],
     sortByDateDesc m.timeOf (parseFetched m.now (fetchItems m (.uidList (u :: us)))))
  | .seqRange r =>
    (["FETCH"], sortByDateDesc m.timeOf (parseFetched m.now (fetchItems m (.seqRange r))))

/-- The `SearchResult` record of `types.ts`. -/
structure SearchResult where
  messages : List EmailMessage
  totalCount : Nat
  query : String
deriving DecidableEq, Repr

/-- `ImapService.performSearch` after the server answered the SEARCH command
with the match list `results`: no matches resolves the empty result at once;
otherwise the fetched subset is capped at the first 50 matched identifiers
while `totalCount` keeps the full match count. -/
def performSearch (m : ImapModel) (results : List Nat) (originalQuery : String) :
    SearchResult :=
  if results.isEmpty then
    ⟨[], 0, originalQuery⟩
  else
    let limitedResults := results.take 50
    ⟨(fetchMessagesRun m (.uidList limitedResults)).2, results.length, originalQuery⟩

/-- A minimal concrete server model, used by the witnesses: an empty mailbox
at epoch time. -/
def emptyModel : ImapModel :=
  ⟨fun _ => none, fun _ => [], fun _ => 0, "1970-01-01T00:00:00.000Z"⟩

/-! ## Delete-to-trash (`ImapService.deleteMessages`) -/

/-- A protocol command issued by the mailbox operations, for command-trace
claims: `openBox name readOnly`, `move ids destination`, `closeBox`, and
`rename oldPath newPath`. -/
inductive ImapCmd where
  | openBox : String → Bool → ImapCmd
  | move : List String → String → ImapCmd
  | closeBox : ImapCmd
  | rename : String → String → ImapCmd
deriving DecidableEq, Repr

/-- The server's disposition towards `deleteMessages`' three commands:
each field is the error the command calls back with, or `none` on success. -/
structure MoveBehavior where
  openInboxError : Option String
  trashMoveError : Option String
  binMoveError : Option String
deriving DecidableEq, Repr

/-- The `DeleteMessageResult` record of `types.ts`. -/
structure DeleteMessageResult where
  success : Bool
  deletedCount : Nat
  message : String
deriving DecidableEq, Repr

/-- `ImapService.deleteMessages`, as (issued commands, outcome): open INBOX
read-write (`openBox('INBOX', false)`), move the given identifiers to
`[Gmail]/Trash`; if that move errors, retry the same move against
`[Gmail]/Bin` and fail with the bin error if that also errors; on either
successful move, close the box and resolve success with `deletedCount` equal
to the number of identifiers requested. -/
def deleteMessagesRun (b : MoveBehavior) (messageIds : List String) :
    List ImapCmd × Except String DeleteMessageResult :=
  match b.openInboxError with
  | some e => ([.openBox "INBOX" false], .error e)
  | none =>
    match b.trashMoveError with
    | none =>
      ([.openBox "INBOX" false, .move messageIds "[Gmail]/Trash", .closeBox],
       .ok ⟨true, messageIds.length, "Messages moved to Trash"⟩)
    | some _ =>
      match b.binMoveError with
      | none =>
        ([.openBox "INBOX" false, .move messageIds "[Gmail]/Trash",
          .move messageIds "[Gmail]/Bin", .closeBox],
         .ok ⟨true, messageIds.length, "Messages moved to Trash"⟩)
      | some be =>
        ([.openBox "INBOX" false, .move messageIds "[Gmail]/Trash",
          .move messageIds "[Gmail]/Bin"], .error be)

/-! ## Query Translator (`ImapService.parseSearchQuery`)

The translator matches the query against the regular expression `/in:(\w+)/i`
(first match, case-insensitive), maps the lower-cased captured word through a
fixed folder table, and computes the remaining terms as
`query.replace(/in:\w+\s*/gi, '').trim()`. The regular-expression scanning is
embedded character by character. -/

/-- JavaScript `\w` (ASCII): letters, digits and underscore. -/
def isWordChar (c : Char) : Bool :=
  c.isAlpha || c.isDigit || c = '_'

/-- Does `/in:\w+/i` match at the start of `l`? If so, return the captured
`\w+` word (greedy) and the remainder of the input after the match. -/
def matchInHere : List Char → Option (List Char × List Char)
  | c1 :: c2 :: c3 :: rest =>
    if (c1 == 'i' || c1 == 'I') && (c2 == 'n' || c2 == 'N') && c3 == ':' then
      let w := rest.takeWhile isWordChar
      if w.isEmpty then none else some (w, rest.dropWhile isWordChar)
    else none
  | _ => none

/-- `query.match(/in:(\w+)/i)`: the captured word of the leftmost match, the
scan advancing one character after each failed position. -/
def findInMatch : List Char → Option (List Char)
  | [] => none
  | c :: rest =>
    match matchInHere (c :: rest) with
    | some (w, _) => some w
    | none => findInMatch rest

/-- The scanning loop of `query.replace(/in:\w+\s*/gi, '')`, structurally
recursive on a fuel bounded by the input length (each step consumes at least
one character, so `l.length` fuel always suffices): every match of `in:`
followed by a nonempty word and any trailing whitespace is removed; scanning
resumes right after each removed match. -/
def removeInTokensF : Nat → List Char → List Char
  | 0, l => l
  | _ + 1, [] => []
  | _ + 1, [c] => [c]
  | _ + 1, [c1, c2] => [c1, c2]
  | fuel + 1, c1 :: c2 :: c3 :: rest =>
    if (c1 == 'i' || c1 == 'I') && (c2 == 'n' || c2 == 'N') && c3 == ':'
        && !(rest.takeWhile isWordChar).isEmpty then
      removeInTokensF fuel ((rest.dropWhile isWordChar).dropWhile isSpaceChar)
    else
      c1 :: removeInTokensF fuel (c2 :: c3 :: rest)

/-- `query.replace(/in:\w+\s*/gi, '')`. -/
def removeInTokens (l : List Char) : List Char :=
  removeInTokensF l.length l

/-- The fixed `folderMap` table of `parseSearchQuery`: logical folder names
to Gmail IMAP folder paths. -/
def folderMap (name : String) : Option String :=
  if name = "inbox" then some "INBOX"
  else if name = "sent" then some "[Gmail]/Sent Mail"
  else if name = "trash" then some "[Gmail]/Trash"
  else if name = "bin" then some "[Gmail]/Bin"
  else if name = "spam" then some "[Gmail]/Spam"
  else if name = "drafts" then some "[Gmail]/Drafts"
  else if name = "starred" then some "[Gmail]/Starred"
  else if name = "important" then some "[Gmail]/Important"
  else if name = "all" then some "[Gmail]/All Mail"
  else none

/-- `ImapService.parseSearchQuery`: Gmail-style query → (target folder,
remaining search terms). Without an `in:<word>` token the query is returned
unchanged with folder INBOX; with one, the lower-cased word is mapped through
`folderMap` (falling back to INBOX) and the search terms are the query with
all `in:<word>` tokens and their trailing whitespace removed, trimmed. -/
def parseSearchQuery (query : String) : String × String :=
  match findInMatch query.data with
  | none => ("INBOX", query)
  | some w =>
    let folderName := String.mk (w.map Char.toLower)
    let folder := optStr (folderMap folderName) "INBOX"
    let searchTerms := String.mk (trimChars (removeInTokens query.data))
    (folder, searchTerms)

/-! ## Move label (`ImapService.moveLabel`) -/

/-- The `MoveLabelResult` record of `types.ts`. -/
structure MoveLabelResult where
  success : Bool
  message : String
deriving DecidableEq, Repr

/-- The leaf-name computation of `moveLabel`:
`labelName.split('/').pop() || labelName`. -/
def leafNameOf (label : String) : String :=
  match (splitChar '/' label.data).getLast? with
  | some s => if s = [] then label else String.mk s
  | none => label

/-- The destination computation of `moveLabel`:
`` `${newParentLabel}/${leafName}` ``. -/
def moveLabelDestination (labelName newParentLabel : String) : String :=
  newParentLabel ++ "/" ++ leafNameOf labelName

/-- `ImapService.moveLabel`, as (issued commands, outcome): one
`renameBox(labelName, destination)`; the server's disposition is
`renameError`. -/
def moveLabelRun (renameError : Option String) (labelName newParentLabel : String) :
    List ImapCmd × Except String MoveLabelResult :=
  let destination := moveLabelDestination labelName newParentLabel
  match renameError with
  | some e => ([.rename labelName destination], .error e)
  | none =>
    ([.rename labelName destination],
     .ok ⟨true, "Label \"" ++ labelName ++ "\" moved to \"" ++ destination ++ "\" successfully"⟩)

/-! ## Mailbox Tree Flattener (`ImapService.parseMailboxes`) -/

mutual
/-- A node of the nested mailbox description returned by `getBoxes`: its
reported delimiter (absent or empty falls back to `/`) and its optional
child map. -/
inductive MailboxNode : Type where
  | mk : Option String → Option MailboxList → MailboxNode

/-- The key-ordered entries of a mailbox object, matching JavaScript
key-iteration order: each entry is a folder name and its node. -/
inductive MailboxList : Type where
  | nil : MailboxList
  | cons : String → MailboxNode → MailboxList → MailboxList
end

/-- `ImapService.parseMailboxes`: flatten a nested mailbox object into the
depth-first list of full paths, each node pushed before its children, every
node joined to its parent path with the node's own reported delimiter
(`box.delimiter || '/'`); an empty parent path (the root call) contributes
the bare key. -/
def parseMailboxes : MailboxList → String → List String
  | .nil, _ => []
  | .cons key (.mk delim none) rest, parent =>
    let fullPath := if parent = "" then key else parent ++ optStr delim "/" ++ key
    fullPath :: parseMailboxes rest parent
  | .cons key (.mk delim (some cs)) rest, parent =>
    let fullPath := if parent = "" then key else parent ++ optStr delim "/" ++ key
    fullPath :: (parseMailboxes cs fullPath ++ parseMailboxes rest parent)

/-- Total number of nodes of a nested mailbox description. -/
def countNodes : MailboxList → Nat
  | .nil => 0
  | .cons _ (.mk _ none) rest => 1 + countNodes rest
  | .cons _ (.mk _ (some cs)) rest => 1 + countNodes cs + countNodes rest

/-- A server model with two messages, both timestamped identically by the
constant clock; used to witness the stability clause. -/
def twoModel : ImapModel :=
  ⟨fun u => if u = 1 then some ⟨"Subject: A", some ⟨some 1, some "D"⟩⟩
    else if u = 2 then some ⟨"Subject: B", some ⟨some 2, some "D"⟩⟩ else none,
   fun _ => [], fun _ => 0, "N"⟩

/-- The first message of `twoModel`, as parsed. -/
def msgA : EmailMessage := parseHeader "Subject: A" ⟨some 1, some "D"⟩ "N"

/-- The second message of `twoModel`, as parsed. -/
def msgB : EmailMessage := parseHeader "Subject: B" ⟨some 2, some "D"⟩ "N"

/-- A server model holding one message under UID 1, used to exercise the
search pipeline against the Sent folder. -/
def sentModel : ImapModel :=
  ⟨fun u => if u = 1 then some ⟨"Subject: Hello", some ⟨some 1, some "D"⟩⟩ else none,
   fun _ => [], fun _ => 0, "N"⟩

/-! ## Theorems settling the claims -/

/-- C1: For every action passed to `connectAndRun` that invokes `succeed`,
invokes `fail`, or throws synchronously, the connection cleanup (`imap.end`)
appears exactly once in the run's event trace, and it precedes the first
settlement of the promise — the point at which the caller observes the
resolved or rejected result. -/
theorem connectAndRun_cleanup_once {T E : Type} (a : Action T E)
    (h : (∃ v, a = ⟨[AStep.succeed v], none⟩) ∨
         (∃ e, a = ⟨[AStep.fail e], none⟩) ∨
         (∃ e, a = ⟨[], some e⟩)) :
    cleanupCount (connectAndRunTrace (ConnectOutcome.ready a)) = 1 ∧
    ∃ i j, cleanupIdx (connectAndRunTrace (ConnectOutcome.ready a)) = some i ∧
      settleIdx (connectAndRunTrace (ConnectOutcome.ready a)) = some j ∧ i < j := by
  rcases h with ⟨v, rfl⟩ | ⟨e, rfl⟩ | ⟨e, rfl⟩ <;>
    exact ⟨rfl, 0, 1, rfl, rfl, Nat.zero_lt_one⟩

theorem connectAndRun_cleanup_once_witness :
    cleanupCount (connectAndRunTrace (ConnectOutcome.ready
      (⟨[AStep.succeed 0], none⟩ : Action Nat String))) = 1 ∧
    ∃ i j, cleanupIdx (connectAndRunTrace (ConnectOutcome.ready
        (⟨[AStep.succeed 0], none⟩ : Action Nat String))) = some i ∧
      settleIdx (connectAndRunTrace (ConnectOutcome.ready
        (⟨[AStep.succeed 0], none⟩ : Action Nat String))) = some j ∧ i < j :=
  @connectAndRun_cleanup_once Nat String ⟨[AStep.succeed 0], none⟩ (Or.inl ⟨0, rfl⟩)

/-- C2: every `SearchResult` produced by `performSearch` keeps the original
query string, satisfies `messages.length ≤ min(totalCount, 50)` with
`totalCount` the full server-side match count, and zero server matches yield
`{messages := [], totalCount := 0, query := originalQuery}`. -/
theorem searchResult_invariants (m : ImapModel) (results : List Nat) (q : String) :
    (performSearch m results q).query = q ∧
    (performSearch m results q).totalCount = results.length ∧
    (performSearch m results q).messages.length ≤
      min (performSearch m results q).totalCount 50 ∧
    (results = [] → performSearch m results q = ⟨[], 0, q⟩) := by
  match results with
  | [] => exact ⟨rfl, rfl, by simp [performSearch], fun _ => rfl⟩
  | r :: rs =>
    refine ⟨rfl, rfl, ?_, fun hc => by cases hc⟩
    have hle : (parseFetched m.now (fetchItems m (.uidList ((r :: rs).take 50)))).length
        ≤ ((r :: rs).take 50).length :=
      le_trans (List.length_filterMap_le _ _) (List.length_filterMap_le _ _)
    have hmin : ((r :: rs).take 50).length = min 50 (r :: rs).length :=
      List.length_take 50 (r :: rs)
    show (sortByDateDesc m.timeOf (parseFetched m.now
        (fetchItems m (.uidList ((r :: rs).take 50))))).length ≤ min (r :: rs).length 50
    rw [sortByDateDesc, List.length_mergeSort]
    omega

theorem searchResult_invariants_witness :
    (performSearch emptyModel [] "x").query = "x" ∧
    performSearch emptyModel [] "x" = ⟨[], 0, "x"⟩ :=
  ⟨(searchResult_invariants emptyModel [] "x").1,
   (searchResult_invariants emptyModel [] "x").2.2.2 rfl⟩

/-- C3: `deleteMessages` opens INBOX read-write and first moves the given
identifiers to `[Gmail]/Trash`; when that move fails it retries the move
against `[Gmail]/Bin` before failing with the bin error; on success via
either folder name it reports success with `deletedCount` equal to the
number of identifiers requested. -/
theorem deleteMessages_spec (b : MoveBehavior) (ids : List String)
    (hopen : b.openInboxError = none) :
    (deleteMessagesRun b ids).1.take 2 =
      [ImapCmd.openBox "INBOX" false, ImapCmd.move ids "[Gmail]/Trash"] ∧
    (b.trashMoveError = none →
      (deleteMessagesRun b ids).1 =
        [.openBox "INBOX" false, .move ids "[Gmail]/Trash", .closeBox] ∧
      (deleteMessagesRun b ids).2 = .ok ⟨true, ids.length, "Messages moved to Trash"⟩) ∧
    (∀ e, b.trashMoveError = some e → b.binMoveError = none →
      (deleteMessagesRun b ids).1 =
        [.openBox "INBOX" false, .move ids "[Gmail]/Trash",
         .move ids "[Gmail]/Bin", .closeBox] ∧
      (deleteMessagesRun b ids).2 = .ok ⟨true, ids.length, "Messages moved to Trash"⟩) ∧
    (∀ e e', b.trashMoveError = some e → b.binMoveError = some e' →
      (deleteMessagesRun b ids).2 = .error e') := by
  obtain ⟨o, t, bi⟩ := b
  simp only at hopen
  subst hopen
  cases t <;> cases bi <;> simp [deleteMessagesRun]

theorem deleteMessages_spec_witness :
    (deleteMessagesRun ⟨none, some "trash gone", none⟩ ["7"]).1 =
      [ImapCmd.openBox "INBOX" false, ImapCmd.move ["7"] "[Gmail]/Trash",
       ImapCmd.move ["7"] "[Gmail]/Bin", ImapCmd.closeBox] ∧
    (deleteMessagesRun ⟨none, some "trash gone", none⟩ ["7"]).2 =
      .ok ⟨true, 1, "Messages moved to Trash"⟩ :=
  (deleteMessages_spec ⟨none, some "trash gone", none⟩ ["7"] rfl).2.2.1 "trash gone" rfl rfl

/-- C4: the Query Translator recognizes a case-insensitive `in:<word>` token,
lower-cases the word, maps each of the nine logical names to its provider
folder path, sends unrecognized names to INBOX, and strips the token plus
trailing whitespace from the remaining terms; moreover the chosen folder is
always either INBOX or an entry of the fixed folder table. -/
theorem parseSearchQuery_spec :
    parseSearchQuery "in:sent find me" = ("[Gmail]/Sent Mail", "find me") ∧
    parseSearchQuery "in:bogus x" = ("INBOX", "x") ∧
    parseSearchQuery "In:SENT hello" = ("[Gmail]/Sent Mail", "hello") ∧
    parseSearchQuery "in:inbox a" = ("INBOX", "a") ∧
    parseSearchQuery "in:trash a" = ("[Gmail]/Trash", "a") ∧
    parseSearchQuery "in:bin a" = ("[Gmail]/Bin", "a") ∧
    parseSearchQuery "in:spam a" = ("[Gmail]/Spam", "a") ∧
    parseSearchQuery "in:drafts a" = ("[Gmail]/Drafts", "a") ∧
    parseSearchQuery "in:starred a" = ("[Gmail]/Starred", "a") ∧
    parseSearchQuery "in:important a" = ("[Gmail]/Important", "a") ∧
    parseSearchQuery "in:all a" = ("[Gmail]/All Mail", "a") ∧
    parseSearchQuery "in:spam   padded" = ("[Gmail]/Spam", "padded") ∧
    (∀ q : String, (parseSearchQuery q).1 ∈
      ["INBOX", "[Gmail]/Sent Mail", "[Gmail]/Trash", "[Gmail]/Bin", "[Gmail]/Spam",
       "[Gmail]/Drafts", "[Gmail]/Starred", "[Gmail]/Important", "[Gmail]/All Mail"]) := by
  refine ⟨by decide, by decide, by decide, by decide, by decide, by decide, by decide,
    by decide, by decide, by decide, by decide, by decide, ?_⟩
  intro q
  rw [parseSearchQuery]
  cases hm : findInMatch q.data with
  | none => simp
  | some w =>
    simp only
    rcases hf : folderMap (String.mk (w.map Char.toLower)) with _ | f
    · simp [optStr]
    · rw [folderMap] at hf
      split_ifs at hf <;> injection hf with hf <;> subst hf <;> decide

/-- C5: the Header Parser is total — it is a function defined on every raw
header block and attribute record — lines without a colon are ignored, an
absent (or empty) `subject` degrades to `"(No Subject)"`, an absent `from`
degrades to `""`, the `to` field is split on commas with entries trimmed and
empties dropped, and an absent receipt timestamp defaults to the parse
time `now`. -/
theorem parseHeader_total_defaults :
    (∀ h a now, headerValue h "subject".data = none →
      (parseHeader h a now).subject = "(No Subject)") ∧
    (∀ h a now, headerValue h "from".data = none → (parseHeader h a now).«from» = "") ∧
    (∀ h (a : Attrs) now, a.date = none → (parseHeader h a now).date = now) ∧
    toFieldOf "To: a@x , ,, b@y" = ["a@x", "b@y"] ∧
    (∀ h a now, (toFieldOf h).length > 0 → (parseHeader h a now).«to» = toFieldOf h) ∧
    (∀ (a : Attrs) now, parseHeader "no colon line" a now =
      ⟨optNatStr a.uid, optNatStr a.uid, "(No Subject)", "", [""], optStr a.date now,
       "(No Subject) - Unknown sender", ["INBOX"]⟩) := by
  refine ⟨?_, ?_, ?_, by decide, ?_, ?_⟩
  · intro h a now hs
    simp [parseHeader, hs, optChars]
  · intro h a now hf
    simp [parseHeader, hf, optChars]
  · intro h a now hd
    simp [parseHeader, hd, optStr]
  · intro h a now ht
    simp [parseHeader, ht]
  · intro a now
    rfl

theorem parseHeader_total_defaults_witness :
    (parseHeader "X" ⟨none, none⟩ "T").subject = "(No Subject)" ∧
    (parseHeader "X" ⟨none, none⟩ "T").«from» = "" ∧
    (parseHeader "X" ⟨none, none⟩ "T").date = "T" ∧
    (parseHeader "To: a@x , ,, b@y" ⟨none, none⟩ "T").«to» = ["a@x", "b@y"] :=
  ⟨parseHeader_total_defaults.1 "X" ⟨none, none⟩ "T" rfl,
   parseHeader_total_defaults.2.1 "X" ⟨none, none⟩ "T" rfl,
   parseHeader_total_defaults.2.2.1 "X" ⟨none, none⟩ "T" rfl,
   by rw [parseHeader_total_defaults.2.2.2.2.1 "To: a@x , ,, b@y" ⟨none, none⟩ "T" (by decide)]
      decide⟩

/-- `splitChar` never returns the empty list of pieces. -/
theorem splitChar_ne_nil (sep : Char) (l : List Char) : splitChar sep l ≠ [] := by
  induction l with
  | nil => simp [splitChar]
  | cons c rest ih =>
    rw [splitChar]
    split
    · simp
    · rcases h : splitChar sep rest with _ | ⟨s, ss⟩
      · exact absurd h ih
      · simp [consHead, h]

/-- Splitting at a separator occurrence: everything before the occurrence
contributes a nonempty prefix of pieces, followed by the pieces of the
remainder. -/
theorem splitChar_append (sep : Char) (pre l2 : List Char) :
    ∃ xs, xs ≠ [] ∧ splitChar sep (pre ++ sep :: l2) = xs ++ splitChar sep l2 := by
  induction pre with
  | nil => exact ⟨[[]], by simp, by simp [splitChar]⟩
  | cons c pre ih =>
    obtain ⟨xs, hne, hx⟩ := ih
    by_cases hc : c = sep
    · exact ⟨[] :: xs, by simp, by simp [splitChar, hc, hx]⟩
    · rcases xs with _ | ⟨x, xs'⟩
      · exact absurd rfl hne
      · refine ⟨(c :: x) :: xs', by simp, ?_⟩
        rw [List.cons_append, splitChar, if_neg hc, hx]
        simp [consHead]

/-- A list without the separator splits into itself as the single piece. -/
theorem splitChar_of_not_mem (sep : Char) (l : List Char) (h : sep ∉ l) :
    splitChar sep l = [l] := by
  induction l with
  | nil => rfl
  | cons c rest ih =>
    rw [splitChar,
        if_neg (fun hc => h (by rw [← hc]; exact List.mem_cons_self c rest)),
        ih (fun hm => h (List.mem_cons_of_mem c hm))]
    rfl

/-- The leaf name of a path `pre ++ "/" ++ leaf` whose final segment `leaf`
is nonempty and free of the delimiter is exactly `leaf`: the ancestor
segments are discarded. -/
theorem leafNameOf_append (pre leaf : List Char) (h1 : leaf ≠ []) (h2 : '/' ∉ leaf) :
    leafNameOf (String.mk (pre ++ '/' :: leaf)) = String.mk leaf := by
  rw [leafNameOf]
  obtain ⟨xs, hne, hx⟩ := splitChar_append '/' pre leaf
  rw [show (String.mk (pre ++ '/' :: leaf)).data = pre ++ '/' :: leaf from rfl, hx,
      splitChar_of_not_mem '/' leaf h2, List.getLast?_append]
  simp [h1]

/-- C6: `moveLabel(label, newParent)` computes the destination as
`newParent + "/" + leafNameOf(label)` — only the leaf segment of the old
path is preserved, ancestor segments are discarded — and issues a rename to
that destination; in particular `moveLabel("Work/Project", "Archive")`
renames to `"Archive/Project"`. -/
theorem moveLabel_spec :
    moveLabelDestination "Work/Project" "Archive" = "Archive/Project" ∧
    (moveLabelRun none "Work/Project" "Archive").1 =
      [ImapCmd.rename "Work/Project" "Archive/Project"] ∧
    (∀ (newParent : String) (pre leaf : List Char), leaf ≠ [] → '/' ∉ leaf →
      moveLabelDestination (String.mk (pre ++ '/' :: leaf)) newParent =
        newParent ++ "/" ++ String.mk leaf) := by
  refine ⟨by decide, by decide, ?_⟩
  intro p pre leaf h1 h2
  rw [moveLabelDestination, leafNameOf_append pre leaf h1 h2]

theorem moveLabel_spec_witness :
    moveLabelDestination (String.mk ("Work".data ++ '/' :: "Project".data)) "Archive" =
      "Archive" ++ "/" ++ String.mk "Project".data :=
  moveLabel_spec.2.2 "Archive" "Work".data "Project".data (by decide) (by decide)

/-- C7: the Mailbox Tree Flattener emits one full path per node (output
count equals total node count, for every tree and parent prefix), an empty
tree yields the empty list, and the concrete nested example shows the
depth-first order with each parent before its children and each child path
composed as `parent ++ delimiter ++ name` with the node's own reported
delimiter (default `/`). -/
theorem parseMailboxes_spec :
    (∀ bs parent, (parseMailboxes bs parent).length = countNodes bs) ∧
    (∀ parent, parseMailboxes .nil parent = []) ∧
    parseMailboxes
      (.cons "A" (.mk none (some (.cons "B" (.mk (some ".") none)
        (.cons "C" (.mk none none) .nil))))
        (.cons "D" (.mk none none) .nil)) "" = ["A", "A.B", "A/C", "D"] := by
  refine ⟨?_, fun _ => rfl, by decide⟩
  intro bs parent
  induction bs, parent using parseMailboxes.induct <;>
    simp [parseMailboxes, countNodes, *] <;> omega

/-- The fetch comparator is transitive. -/
theorem dateGE_trans (t : String → Int) (a b c : EmailMessage)
    (hab : dateGE t a b) (hbc : dateGE t b c) : dateGE t a c := by
  simp only [dateGE, decide_eq_true_eq] at hab hbc ⊢
  omega

/-- The fetch comparator is total. -/
theorem dateGE_total (t : String → Int) (a b : EmailMessage) :
    dateGE t a b || dateGE t b a := by
  simp only [dateGE, Bool.or_eq_true, decide_eq_true_eq]
  omega

/-- C8: the Fetch Pipeline returns an empty result without issuing any
protocol command for an empty explicit identifier list; otherwise its output
is non-increasing by timestamp at every adjacent pair, and two messages with
equal timestamps keep their arrival order (the order in which they were
parsed from the fetch stream). -/
theorem fetch_pipeline_spec :
    (∀ m : ImapModel, fetchMessagesRun m (.uidList []) = ([], [])) ∧
    (∀ (m : ImapModel) (s : FetchSource),
      List.Chain' (fun x y => m.timeOf y.date ≤ m.timeOf x.date)
        (fetchMessagesRun m s).2) ∧
    (∀ (m : ImapModel) (s : FetchSource) (x y : EmailMessage),
      m.timeOf x.date = m.timeOf y.date →
      List.Sublist [x, y] (parseFetched m.now (fetchItems m s)) →
      List.Sublist [x, y] (fetchMessagesRun m s).2) := by
  refine ⟨fun _ => rfl, ?_, ?_⟩
  · intro m s
    have key : ∀ msgs : List EmailMessage,
        List.Chain' (fun x y => m.timeOf y.date ≤ m.timeOf x.date)
          (sortByDateDesc m.timeOf msgs) := by
      intro msgs
      have hp := List.sorted_mergeSort (dateGE_trans m.timeOf) (dateGE_total m.timeOf) msgs
      exact (List.Pairwise.chain' hp).imp fun a b hab => of_decide_eq_true hab
    match s with
    | .uidList [] => exact List.chain'_nil
    | .uidList (u :: us) => exact key _
    | .seqRange r => exact key _
  · intro m s x y heq hsub
    have hxy : dateGE m.timeOf x y := by
      simp only [dateGE, decide_eq_true_eq]
      omega
    match s with
    | .uidList [] => exact hsub
    | .uidList (u :: us) =>
      exact List.pair_sublist_mergeSort (dateGE_trans m.timeOf) (dateGE_total m.timeOf)
        hxy hsub
    | .seqRange r =>
      exact List.pair_sublist_mergeSort (dateGE_trans m.timeOf) (dateGE_total m.timeOf)
        hxy hsub

theorem fetch_pipeline_spec_witness :
    fetchMessagesRun twoModel (.uidList []) = ([], []) ∧
    List.Sublist [msgA, msgB] (fetchMessagesRun twoModel (.uidList [1, 2])).2 :=
  ⟨fetch_pipeline_spec.1 twoModel,
   fetch_pipeline_spec.2.2 twoModel (.uidList [1, 2]) msgA msgB rfl
     (by exact List.Sublist.refl _)⟩

/-- C9 counterexample: searching `in:sent hello` targets the folder
`[Gmail]/Sent Mail`, yet the message produced by the search pipeline from
that folder carries the labels list `["INBOX"]` — it does not contain the
mailbox it was fetched from. -/
theorem searchMessages_labels_counterexample :
    (parseSearchQuery "in:sent hello").1 = "[Gmail]/Sent Mail" ∧
    ((performSearch sentModel [1] "in:sent hello").messages.map
      EmailMessage.labels) = [["INBOX"]] ∧
    ∃ msg ∈ (performSearch sentModel [1] "in:sent hello").messages,
      "[Gmail]/Sent Mail" ∉ msg.labels := by
  have harr : parseFetched sentModel.now
      (fetchItems sentModel (.uidList ([1].take 50))) =
      [parseHeader "Subject: Hello" ⟨some 1, some "D"⟩ "N"] := by decide
  have hmsg : (performSearch sentModel [1] "in:sent hello").messages =
      [parseHeader "Subject: Hello" ⟨some 1, some "D"⟩ "N"] := by
    show sortByDateDesc sentModel.timeOf (parseFetched sentModel.now
      (fetchItems sentModel (.uidList ([1].take 50)))) = _
    rw [harr, sortByDateDesc, List.mergeSort_singleton]
  refine ⟨by decide, ?_, ?_⟩
  · rw [hmsg]
    decide
  · rw [hmsg]
    decide

/-- C9 amended: the label list of every message constructed by the Header
Parser — in particular of every message returned by the fetch pipeline, for
any folder the operation opened — is the constant `["INBOX"]`, not the
mailbox the message was fetched from. -/
theorem parseHeader_labels_inbox :
    (∀ h a now, (parseHeader h a now).labels = ["INBOX"]) ∧
    (∀ (m : ImapModel) (s : FetchSource),
      ∀ msg ∈ (fetchMessagesRun m s).2, msg.labels = ["INBOX"]) := by
  have hmem : ∀ (now : String) (items : List FetchItem) (msg : EmailMessage),
      msg ∈ parseFetched now items → msg.labels = ["INBOX"] := by
    intro now items msg hm
    rw [parseFetched, List.mem_filterMap] at hm
    obtain ⟨it, -, hit⟩ := hm
    rw [Option.map_eq_some'] at hit
    obtain ⟨a, -, ha⟩ := hit
    rw [← ha]
    rfl
  refine ⟨fun _ _ _ => rfl, ?_⟩
  intro m s msg hmsg
  match s with
  | .uidList [] => cases hmsg
  | .uidList (u :: us) =>
    rw [fetchMessagesRun] at hmsg
    rw [sortByDateDesc, List.mem_mergeSort] at hmsg
    exact hmem _ _ _ hmsg
  | .seqRange r =>
    rw [fetchMessagesRun] at hmsg
    rw [sortByDateDesc, List.mem_mergeSort] at hmsg
    exact hmem _ _ _ hmsg

theorem parseHeader_labels_inbox_witness :
    msgA.labels = ["INBOX"] :=
  parseHeader_labels_inbox.2 twoModel (.uidList [1, 2]) msgA
    (by rw [fetchMessagesRun, sortByDateDesc, List.mem_mergeSort]; decide)

/-- C10: the `to` list of every parsed message is non-empty: when the `to`
header is absent or the structured comma-split yields no entries, the list
is exactly the one-element list holding the raw `to` value (the empty string
when the header is absent). -/
theorem parseHeader_to_fallback :
    (∀ h a now, 1 ≤ (parseHeader h a now).«to».length) ∧
    (∀ h a now, toFieldOf h = [] →
      (parseHeader h a now).«to» = [String.mk ((headerValue h "to".data).getD [])]) ∧
    (∀ h a now, headerValue h "to".data = none → (parseHeader h a now).«to» = [""]) := by
  refine ⟨?_, ?_, ?_⟩
  · intro h a now
    show 1 ≤ (if (toFieldOf h).length > 0 then toFieldOf h
      else [String.mk ((headerValue h "to".data).getD [])]).length
    split
    · omega
    · simp
  · intro h a now ht
    show (if (toFieldOf h).length > 0 then toFieldOf h
      else [String.mk ((headerValue h "to".data).getD [])]) = _
    rw [ht]
    simp
  · intro h a now ht
    show (if (toFieldOf h).length > 0 then toFieldOf h
      else [String.mk ((headerValue h "to".data).getD [])]) = [""]
    have hf : toFieldOf h = [] := by
      rw [toFieldOf, ht]
      rfl
    rw [hf, ht]
    simp

theorem parseHeader_to_fallback_witness :
    1 ≤ (parseHeader "X" ⟨none, none⟩ "T").«to».length ∧
    (parseHeader "X" ⟨none, none⟩ "T").«to» =
      [String.mk ((headerValue "X" "to".data).getD [])] ∧
    (parseHeader "X" ⟨none, none⟩ "T").«to» = [""] :=
  ⟨parseHeader_to_fallback.1 "X" ⟨none, none⟩ "T",
   parseHeader_to_fallback.2.1 "X" ⟨none, none⟩ "T" rfl,
   parseHeader_to_fallback.2.2 "X" ⟨none, none⟩ "T" rfl⟩

end GmailMcp
